import Mathlib

/-!
Shallow embedding of src/ups_scraper_server.py (Eaton UPS scraper server).

The embedding models the Python code on `List Char` / `String`:
Python str methods (strip, lower, replace, the `in` operator), the three
regular-expression searches of clean_value, Python float() string parsing,
the `label=<TABLE ... </TABLE>` findall scan, and a tree model of
BeautifulSoup html.parser on the well-formed table fragments the device
serves.  Machine reals are modelled exactly: Python int as Int, Python
float literals as Rat (decimal parsing is exact), with distinguished
constructors for the inf and nan results float() can produce.
-/

namespace UpsScraper

/-- ASCII model of Python whitespace (the class matched by str.strip and re \s):
space, tab, newline, carriage return, vertical tab, form feed. -/
def isPySpace (c : Char) : Bool :=
  decide (c.toNat = 32 ∨ (9 ≤ c.toNat ∧ c.toNat ≤ 13))

/-- ASCII decimal digit, the class matched by re \d and [0-9]. -/
def isPyDigit (c : Char) : Bool :=
  decide (48 ≤ c.toNat ∧ c.toNat ≤ 57)

/-- ASCII model of Python str.lower on a single character. -/
def pyToLower (c : Char) : Char :=
  if 65 ≤ c.toNat ∧ c.toNat ≤ 90 then Char.ofNat (c.toNat + 32) else c

/-- Python str.lower. -/
def pyLower (l : List Char) : List Char := l.map pyToLower

/-- Python str.strip(): remove leading and trailing whitespace. -/
def pyStrip (l : List Char) : List Char :=
  ((l.dropWhile isPySpace).reverse.dropWhile isPySpace).reverse

/-- Python int() on a run of decimal digits. -/
def digitsToNat (l : List Char) : Nat :=
  l.foldl (fun a c => 10 * a + (c.toNat - 48)) 0

/-- Python substring containment, the str `in` operator. -/
def hasSub (hay needle : List Char) : Bool :=
  match hay with
  | [] => needle.isEmpty
  | _ :: t => needle.isPrefixOf hay || hasSub t needle

/-- Scanner for str.replace(needle, ""): remove every non-overlapping
occurrence of the nonempty needle, scanning left to right.  The fuel is
structural; a fuel of at least the input length is enough because each
step consumes at least one character. -/
def pyRemoveAllGo (needle : List Char) : Nat → List Char → List Char
  | 0, l => l
  | _ + 1, [] => []
  | fuel + 1, c :: cs =>
    if needle ≠ [] ∧ needle.isPrefixOf (c :: cs) then
      pyRemoveAllGo needle fuel ((c :: cs).drop needle.length)
    else
      c :: pyRemoveAllGo needle fuel cs

/-- Python str.replace(needle, "") with a nonempty needle. -/
def pyRemoveAll (needle : List Char) (l : List Char) : List Char :=
  pyRemoveAllGo needle l.length l

/-- The value space of the JSON document: Python None, int, float
(finite floats modelled exactly as rationals, plus inf and nan), and str. -/
inductive Value where
  | null : Value
  | int (n : Int) : Value
  | num (q : Rat) : Value
  | inf (neg : Bool) : Value
  | nan : Value
  | str (s : String) : Value
deriving DecidableEq

/-- Result of Python float() on a string: a finite value (exact rational),
an infinity, or nan. -/
inductive PyFloat where
  | fin (q : Rat) : PyFloat
  | inf (neg : Bool) : PyFloat
  | nan : PyFloat
deriving DecidableEq

/-- Digit run with Python numeric-literal underscores: a leading digit,
then digits, where an underscore is allowed only between two digits (it is
dropped).  Returns the collected digits and the unconsumed rest. -/
def uDigitsGoF : Nat → List Char → List Char × List Char
  | 0, l => ([], l)
  | _ + 1, [] => ([], [])
  | fuel + 1, c :: cs =>
    if isPyDigit c then
      match cs with
      | u :: d :: rest =>
        if u = '_' ∧ isPyDigit d then
          let (ds, r) := uDigitsGoF fuel (d :: rest)
          (c :: ds, r)
        else
          let (ds, r) := uDigitsGoF fuel cs
          (c :: ds, r)
      | _ =>
        let (ds, r) := uDigitsGoF fuel cs
        (c :: ds, r)
    else ([], c :: cs)

/-- Digit run with underscores, fuel instantiated. -/
def uDigitsGo (l : List Char) : List Char × List Char :=
  uDigitsGoF l.length l

/-- Digit run that must be nonempty (Python: at least one digit). -/
def uDigits (l : List Char) : Option (List Char × List Char) :=
  let (ds, r) := uDigitsGo l
  if ds = [] then none else some (ds, r)

/-- The decimal part of Python float() syntax: digits, optional point and
fraction digits, optional exponent; the whole input must be consumed. -/
def parseDecimal (l : List Char) : Option Rat :=
  let (ip, r1) := uDigitsGo l
  let (fp, r2) :=
    match r1 with
    | '.' :: r =>
      let (f, rr) := uDigitsGo r
      (some f, rr)
    | _ => ((none : Option (List Char)), r1)
  let mOk : Bool :=
    match fp with
    | none => decide (ip ≠ [])
    | some f => decide (ip ≠ [] ∨ f ≠ [])
  if mOk then
    let mant : Rat :=
      (digitsToNat ip : Rat) +
        (match fp with
         | some f => (digitsToNat f : Rat) / (10 : Rat) ^ f.length
         | none => 0)
    match r2 with
    | [] => some mant
    | e :: r3 =>
      if e = 'e' ∨ e = 'E' then
        let (esign, r4) :=
          match r3 with
          | '-' :: r => (true, r)
          | '+' :: r => (false, r)
          | _ => (false, r3)
        match uDigits r4 with
        | some (ed, []) =>
          some (mant * (10 : Rat) ^ (if esign then -(digitsToNat ed : Int) else (digitsToNat ed : Int)))
        | _ => none
      else none
  else none

/-- Python float() on a string: strip whitespace, optional sign, then
inf, infinity, nan (case-insensitive) or a decimal literal; anything else
raises (modelled as none). -/
def pyFloat (s : List Char) : Option PyFloat :=
  let t := pyStrip s
  match t with
  | [] => none
  | c :: rest =>
    let (neg, body) :=
      if c = '-' then (true, rest)
      else if c = '+' then (false, rest)
      else (false, t)
    let bl := pyLower body
    if bl = "inf".data ∨ bl = "infinity".data then some (.inf neg)
    else if bl = "nan".data then some .nan
    else
      match parseDecimal body with
      | some q => some (.fin (if neg then -q else q))
      | none => none

/-- Coercion of a float() result into the value space. -/
def pyFloatToValue : PyFloat → Value
  | .fin q => .num q
  | .inf b => .inf b
  | .nan => .nan

/-- One attempt of the regex (\d+)\s*marker at the current position:
a nonempty digit run, optional whitespace, then the literal marker.
Returns int() of the digit run. -/
def tryNumBefore (marker : List Char) (cs : List Char) : Option Nat :=
  let ds := cs.takeWhile isPyDigit
  if ds.isEmpty then none
  else
    let rest := (cs.dropWhile isPyDigit).dropWhile isPySpace
    if marker.isPrefixOf rest then some (digitsToNat ds) else none

/-- re.search of (\d+)\s*marker: leftmost match, group(1) as int. -/
def searchNumBefore (marker : List Char) : List Char → Option Nat
  | [] => none
  | c :: cs =>
    match tryNumBefore marker (c :: cs) with
    | some n => some n
    | none => searchNumBefore marker cs

/-- Body of the regex [-+]?[0-9]*\.?[0-9]+ after the optional sign
(with the backtracking the Python engine performs): a greedy digit run,
then a dot with fraction digits only if a digit follows the dot. -/
def matchNumeralCore (cs : List Char) : Option (List Char) :=
  let ds := cs.takeWhile isPyDigit
  let rest := cs.dropWhile isPyDigit
  match rest with
  | '.' :: rest2 =>
    let fs := rest2.takeWhile isPyDigit
    if ¬ fs.isEmpty then some (ds ++ '.' :: fs)
    else if ¬ ds.isEmpty then some ds else none
  | _ => if ¬ ds.isEmpty then some ds else none

/-- One attempt of [-+]?[0-9]*\.?[0-9]+ at the current position. -/
def matchNumeralAt : List Char → Option (List Char)
  | [] => none
  | c :: rest =>
    if c = '+' ∨ c = '-' then (matchNumeralCore rest).map (c :: ·)
    else matchNumeralCore (c :: rest)

/-- re.search of [-+]?[0-9]*\.?[0-9]+: leftmost match, greedy content. -/
def searchNumeral : List Char → Option (List Char)
  | [] => none
  | c :: cs =>
    match matchNumeralAt (c :: cs) with
    | some m => some m
    | none => searchNumeral cs

/-- clean_value from src/ups_scraper_server.py: strip and lowercase, map
the sentinels to None, then inside a catch-all try: the "mn"/"s" duration
rule, the percent rule, the generic numeral search; any failure in the try
block returns the stripped lowercased string. -/
def clean_value (v : String) : Value :=
  let val := pyLower (pyStrip v.data)
  if val = "unknown".data ∨ val = "-".data ∨ val = [] then .null
  else if hasSub val "mn".data ∧ hasSub val "s".data then
    match searchNumBefore "mn".data val, searchNumBefore "s".data val with
    | some mins, some secs => .int ((mins * 60 + secs : Nat) : Int)
    | _, _ => .str (String.mk val)
  else if hasSub val "%".data then
    match pyFloat (pyStrip (pyRemoveAll "%".data val)) with
    | some f => pyFloatToValue f
    | none => .str (String.mk val)
  else
    match searchNumeral val with
    | some numStr =>
      match pyFloat numStr with
      | some f => pyFloatToValue f
      | none => .str (String.mk val)
    | none => .str (String.mk val)

/-- Outcome of the require_api_key decorator: run the handler, or
abort(401, "Invalid or missing API key"). -/
inductive AuthDecision where
  | allow : AuthDecision
  | deny401 : AuthDecision
deriving DecidableEq

/-- Python truthiness of the SERVER_API_KEY configuration value:
None and the empty string are falsy. -/
def pyTruthy : Option String → Bool
  | none => false
  | some s => decide (s ≠ "")

/-- require_api_key from src/ups_scraper_server.py.
key_from_header is request.headers.get("Authorization", "") with every
occurrence of "Bearer " removed (str.replace, not a prefix strip);
key_from_query is request.args.get("api_key"), None when absent.
Deny iff the key is configured truthy and neither credential equals it. -/
def require_api_key (secret header query : Option String) : AuthDecision :=
  let key_from_header := String.mk (pyRemoveAll "Bearer ".data (header.getD "").data)
  let key_from_query := query
  if pyTruthy secret ∧ some key_from_header ≠ secret ∧ key_from_query ≠ secret then
    .deny401
  else
    .allow

/-- Modelled from the spec: the RequestGate as §4.4 and claim C2 word it,
with the header value stripped of one leading "Bearer " prefix.  Declared
only to compare the spec wording with require_api_key. -/
def stripLeadingBearer (h : String) : String :=
  if "Bearer ".data.isPrefixOf h.data then String.mk (h.data.drop 7) else h

/-- Modelled from the spec: authorize(header, query, secret) of §4.4 /
claim C2.  Compared against require_api_key; not part of the program. -/
def gate_spec (secret header query : Option String) : AuthDecision :=
  match secret with
  | none => .allow
  | some s =>
    if stripLeadingBearer (header.getD "") = s ∨ query = some s then .allow
    else .deny401

/-- The literal before each table in re.findall(r"label=(<TABLE.*?</TABLE>)", ...):
the characters of "label=<TABLE". -/
def openPat : List Char :=
  ['l', 'a', 'b', 'e', 'l', '=', '<', 'T', 'A', 'B', 'L', 'E']

/-- The closing literal of the findall pattern: the characters of "</TABLE>". -/
def closePat : List Char := ['<', '/', 'T', 'A', 'B', 'L', 'E', '>']

/-- Find the earliest occurrence of the closing literal "</TABLE>"
(the non-greedy .*? semantics): returns the text before it and the text
after it.  Fuel is structural; input length is enough. -/
def splitAtCloseGo : Nat → List Char → Option (List Char × List Char)
  | 0, _ => none
  | _ + 1, [] => none
  | fuel + 1, c :: cs =>
    if closePat.isPrefixOf (c :: cs) then some ([], (c :: cs).drop 8)
    else
      match splitAtCloseGo fuel cs with
      | some (m, r) => some (c :: m, r)
      | none => none

/-- Earliest "</TABLE>" occurrence splitter. -/
def splitAtClose (l : List Char) : Option (List Char × List Char) :=
  splitAtCloseGo l.length l

/-- re.findall(r"label=(<TABLE.*?</TABLE>)", js_content, re.DOTALL):
scan left to right for the literal "label=<TABLE" (case-sensitive,
re.IGNORECASE is not set), complete each match at the earliest following
"</TABLE>", capture group 1, and continue after the match
(non-overlapping).  DOTALL lets the middle span line breaks, which the
character-list model gives for free. -/
def findTablesGo : Nat → List Char → List (List Char)
  | 0, _ => []
  | _ + 1, [] => []
  | fuel + 1, c :: cs =>
    if openPat.isPrefixOf (c :: cs) then
      match splitAtClose ((c :: cs).drop 12) with
      | some (mid, rest) => ("<TABLE".data ++ mid ++ closePat) :: findTablesGo fuel rest
      | none => findTablesGo fuel cs
    else findTablesGo fuel cs

/-- The table scan, fuel instantiated. -/
def findTables (l : List Char) : List (List Char) :=
  findTablesGo l.length l

/-- Tree model of the document BeautifulSoup(html.parser) builds for the
well-formed table fragments the device serves: elements with lowercased
tag and attribute names, and text nodes. -/
inductive HNode where
  | elem (tag : String) (attrs : List (String × String)) (children : List HNode) : HNode
  | text (s : String) : HNode

/-- Characters allowed in a tag name. -/
def isNameChar (c : Char) : Bool := c.isAlpha || isPyDigit c

/-- Characters allowed in an attribute name. -/
def isAttrNameChar (c : Char) : Bool :=
  !(isPySpace c) && c ≠ '=' && c ≠ '>' && c ≠ '/'

/-- Attribute list parser: skip whitespace, stop at the closing angle
bracket (self-closing variant flagged), read name and an optional
double-quoted or bare value.  Names are lowercased as html.parser does.
Returns the attributes, the self-closing flag, and the rest after the
closing angle bracket. -/
def parseAttrs : Nat → List Char → List (String × String) × Bool × List Char
  | 0, cs => ([], false, cs)
  | _ + 1, [] => ([], false, [])
  | fuel + 1, c :: cs =>
    if isPySpace c then parseAttrs fuel cs
    else if c = '>' then ([], false, cs)
    else if c = '/' then
      match cs with
      | '>' :: rest => ([], true, rest)
      | _ => parseAttrs fuel cs
    else
      let name := (c :: cs).takeWhile isAttrNameChar
      let cs1 := (c :: cs).dropWhile isAttrNameChar
      if name.isEmpty then parseAttrs fuel cs
      else
        let (value, cs2) :=
          match cs1 with
          | '=' :: '"' :: r => (r.takeWhile (· ≠ '"'), (r.dropWhile (· ≠ '"')).drop 1)
          | '=' :: r => (r.takeWhile (fun c => !(isPySpace c) && c ≠ '>'),
                         r.dropWhile (fun c => !(isPySpace c) && c ≠ '>'))
          | _ => ([], cs1)
        let (rest, sc, after) := parseAttrs fuel cs2
        ((String.mk (pyLower name), String.mk value) :: rest, sc, after)

/-- Consume a closing tag at the front of the input, if present. -/
def skipCloseTag (cs : List Char) : List Char :=
  match cs with
  | '<' :: '/' :: r => (r.dropWhile (· ≠ '>')).drop 1
  | _ => cs

/-- Node-sequence parser for the fragment subset: an opening tag starts an
element whose children run to the matching closing tag; any closing tag
ends the current sequence; other characters form text nodes.  Fuel is
structural; parseFragment supplies enough for the inputs that occur. -/
def parseNodes : Nat → List Char → List HNode × List Char
  | 0, cs => ([], cs)
  | _ + 1, [] => ([], [])
  | _ + 1, '<' :: '/' :: rest => ([], '<' :: '/' :: rest)
  | fuel + 1, '<' :: c :: rest =>
    if isNameChar c then
      let tagChars := (c :: rest).takeWhile isNameChar
      let afterTag := (c :: rest).dropWhile isNameChar
      let (attrs, selfClose, afterGt) := parseAttrs (afterTag.length + 1) afterTag
      if selfClose then
        let (sibs, r) := parseNodes fuel afterGt
        (.elem (String.mk (pyLower tagChars)) attrs [] :: sibs, r)
      else
        let (children, r1) := parseNodes fuel afterGt
        let r2 := skipCloseTag r1
        let (sibs, r3) := parseNodes fuel r2
        (.elem (String.mk (pyLower tagChars)) attrs children :: sibs, r3)
    else
      let (sibs, r) := parseNodes fuel (c :: rest)
      (.text "<" :: sibs, r)
  | fuel + 1, c :: rest =>
    let txt := (c :: rest).takeWhile (· ≠ '<')
    let after := (c :: rest).dropWhile (· ≠ '<')
    let (sibs, r) := parseNodes fuel after
    (.text (String.mk txt) :: sibs, r)

/-- BeautifulSoup(table_html, "html.parser") on a fragment: the parsed
node sequence. -/
def parseFragment (cs : List Char) : List HNode :=
  (parseNodes (2 * cs.length + 2) cs).1

mutual
/-- The .text property: concatenation of all descendant text. -/
def getText : HNode → String
  | .text s => s
  | .elem _ _ children => getTextList children
/-- The .text property over a node list. -/
def getTextList : List HNode → String
  | [] => ""
  | n :: ns => getText n ++ getTextList ns
end

mutual
/-- get_text(strip=True): concatenation of each text piece stripped. -/
def getTextStrip : HNode → List Char
  | .text s => pyStrip s.data
  | .elem _ _ children => getTextStripList children
/-- get_text(strip=True) over a node list. -/
def getTextStripList : List HNode → List Char
  | [] => []
  | n :: ns => getTextStrip n ++ getTextStripList ns
end

mutual
/-- soup.find("b"): first bold element in document order, any depth. -/
def findB : HNode → Option HNode
  | .text _ => none
  | .elem t a c => if t = "b" then some (.elem t a c) else findBList c
/-- soup.find("b") over a node list. -/
def findBList : List HNode → Option HNode
  | [] => none
  | n :: ns =>
    match findB n with
    | some r => some r
    | none => findBList ns
end

/-- First value of an attribute, as BeautifulSoup exposes it. -/
def attrLookup (attrs : List (String × String)) (k : String) : Option String :=
  (attrs.find? (fun p => p.1 = k)).map (fun p => p.2)

/-- Split an attribute value on whitespace runs (the HTML class list). -/
def splitWsGo : Nat → List Char → List (List Char)
  | 0, _ => []
  | _ + 1, [] => []
  | fuel + 1, c :: cs =>
    if isPySpace c then splitWsGo fuel cs
    else
      let w := (c :: cs).takeWhile (fun d => !(isPySpace d))
      let rest := (c :: cs).dropWhile (fun d => !(isPySpace d))
      w :: splitWsGo fuel rest

/-- Whitespace split, fuel instantiated. -/
def splitWs (l : List Char) : List (List Char) := splitWsGo l.length l

/-- class_="popupData": the class attribute, split on whitespace,
contains the token popupData. -/
def hasPopupClass (attrs : List (String × String)) : Bool :=
  match attrLookup attrs "class" with
  | some v => (splitWs v.data).any (fun w => w = "popupData".data)
  | none => false

mutual
/-- soup.find_all("tr", class_="popupData") in document order. -/
def findTrs : HNode → List HNode
  | .text _ => []
  | .elem t a c =>
    (if t = "tr" ∧ hasPopupClass a then [HNode.elem t a c] else []) ++ findTrsList c
/-- The popupData row search over a node list. -/
def findTrsList : List HNode → List HNode
  | [] => []
  | n :: ns => findTrs n ++ findTrsList ns
end

mutual
/-- row.find_all("td") in document order. -/
def findTds : HNode → List HNode
  | .text _ => []
  | .elem t a c =>
    (if t = "td" then [HNode.elem t a c] else []) ++ findTdsList c
/-- The cell search over a node list: all descendants of the row. -/
def findTdsList : List HNode → List HNode
  | [] => []
  | n :: ns => findTds n ++ findTdsList ns
end

/-- Note find_all("td") on a row searches the row's descendants, not the
row node itself; the loop body in the source calls it on each tr node. -/
def rowTds (row : HNode) : List HNode :=
  match row with
  | .text _ => []
  | .elem _ _ children => findTdsList children

/-- Python dict assignment d[k] = v on an insertion-ordered dict:
an existing key keeps its original position and gets the new value; a new
key is appended at the end. -/
def dictSet {α : Type} (d : List (String × α)) (k : String) (v : α) : List (String × α) :=
  if d.any (fun p => p.1 = k) then
    d.map (fun p => if p.1 = k then (k, v) else p)
  else d ++ [(k, v)]

/-- The stored value of one row: clean_value(value) if fmt == "raw",
else the raw string. -/
def convRow (fmt : String) (value : String) : Value :=
  if fmt = "raw" then clean_value value else .str value

/-- The qualifying rows of a parsed fragment: each popupData tr whose
cells are exactly two tds; column one is the label, column two the raw
value, both via get_text(strip=True). -/
def qualifyingRows (soup : List HNode) : List (String × String) :=
  (findTrsList soup).filterMap (fun row =>
    match rowTds row with
    | [c0, c1] => some (String.mk (getTextStrip c0), String.mk (getTextStrip c1))
    | _ => none)

/-- The body of the row loop: data[key] = converted value over the
qualifying rows, into a fresh insertion-ordered dict. -/
def buildSection (fmt : String) (rows : List (String × String)) : List (String × Value) :=
  rows.foldl (fun d kv => dictSet d kv.1 (convRow fmt kv.2)) []

/-- The message of the AttributeError raised by soup.find("b").text when
the fragment has no bold element (modelled without Python quoting). -/
def attrErrorMsg : String :=
  "AttributeError: NoneType object has no attribute text"

/-- One iteration of the table loop in get_ups_data: parse the fragment,
take the first bold element's text stripped as the section title (raising
AttributeError when there is none), and build the section dict from the
qualifying rows. -/
def processTable (fmt : String) (tableHtml : List Char) :
    Except String (String × List (String × Value)) :=
  let soup := parseFragment tableHtml
  match findBList soup with
  | none => .error attrErrorMsg
  | some b =>
    let sect := String.mk (pyStrip (getText b).data)
    .ok (sect, buildSection fmt (qualifyingRows soup))

/-- The whole table loop: ups_data starts empty; each table assigns
ups_data[section] = data; an AttributeError propagates and aborts. -/
def tablesToData (fmt : String) :
    List (List Char) → List (String × List (String × Value)) →
    Except String (List (String × List (String × Value)))
  | [], acc => .ok acc
  | t :: ts, acc =>
    match processTable fmt t with
    | .error e => .error e
    | .ok (sect, data) => tablesToData fmt ts (dictSet acc sect data)

/-- The HTTP responses the route handler itself constructs: the telemetry
document with its generation timestamp, or the 500 error body built from a
caught fetch exception. -/
inductive UpsResponse where
  | ok200 (timestamp : String) (sections : List (String × List (String × Value))) : UpsResponse
  | err500 (error : String) : UpsResponse

/-- get_ups_data from src/ups_scraper_server.py, after the api-key
decorator: fmtParam is request.args.get("format") (defaulted to "json"
and lowercased), fetchResult the outcome of requests.get (the caught
exception message, or the response text), ts the current UTC timestamp
string.  The outer Except is an uncaught exception escaping the handler:
the fetch failure is caught and returned as a 500 body, but an
AttributeError from a titleless table propagates. -/
def get_ups_data (fmtParam : Option String) (fetchResult : Except String String)
    (ts : String) : Except String UpsResponse :=
  let fmt := String.mk (pyLower (fmtParam.getD "json").data)
  match fetchResult with
  | .error e => .ok (.err500 e)
  | .ok js_content =>
    let tables_raw := findTables js_content.data
    match tablesToData fmt tables_raw [] with
    | .error e => .error e
    | .ok ups_data => .ok (.ok200 ts ups_data)

/-! ### Character-level facts -/

theorem char_toNat_ofNat (n : Nat) (h : n < 55296) : (Char.ofNat n).toNat = n := by
  have hv : n.isValidChar := Or.inl h
  simp [Char.ofNat, hv, Char.ofNatAux, Char.toNat, UInt32.toNat, UInt32.ofNat',
    BitVec.toNat_ofNatLt]

theorem pyToLower_toNat_le (c : Char) (h : c.toNat ≤ 64) : pyToLower c = c := by
  unfold pyToLower
  rw [if_neg]
  omega

theorem pyToLower_of_digit (c : Char) (h : isPyDigit c = true) : pyToLower c = c := by
  have hc : 48 ≤ c.toNat ∧ c.toNat ≤ 57 := by simpa [isPyDigit] using h
  exact pyToLower_toNat_le c (by omega)

theorem pyToLower_of_space (c : Char) (h : isPySpace c = true) : pyToLower c = c := by
  have hc : c.toNat = 32 ∨ (9 ≤ c.toNat ∧ c.toNat ≤ 13) := by simpa [isPySpace] using h
  exact pyToLower_toNat_le c (by omega)

theorem pyToLower_toNat (c : Char) :
    (pyToLower c).toNat = c.toNat ∨
      ((pyToLower c).toNat = c.toNat + 32 ∧ 65 ≤ c.toNat ∧ c.toNat ≤ 90) := by
  unfold pyToLower
  by_cases h : 65 ≤ c.toNat ∧ c.toNat ≤ 90
  · right
    rw [if_pos h, char_toNat_ofNat _ (by omega)]
    exact ⟨rfl, h⟩
  · left
    rw [if_neg h]

theorem isPyDigit_pyToLower (c : Char) (h : isPyDigit (pyToLower c) = true) :
    isPyDigit c = true := by
  have hd : 48 ≤ (pyToLower c).toNat ∧ (pyToLower c).toNat ≤ 57 := by
    simpa [isPyDigit] using h
  rcases pyToLower_toNat c with he | ⟨he, h1, h2⟩
  · simp only [isPyDigit, decide_eq_true_eq]
    omega
  · omega

theorem char_eq_of_toNat {a b : Char} (h : a.toNat = b.toNat) : a = b :=
  Char.eq_of_val_eq (UInt32.eq_of_toBitVec_eq (BitVec.eq_of_toNat_eq h))

theorem pyToLower_eq_percent (c : Char) (h : pyToLower c = '%') : c = '%' := by
  have ht : (pyToLower c).toNat = 37 := by rw [h]; rfl
  have h37 : ('%' : Char).toNat = 37 := rfl
  rcases pyToLower_toNat c with he | ⟨he, h1, h2⟩
  · exact char_eq_of_toNat (by omega)
  · omega

theorem not_digit_of_space (c : Char) (h : isPySpace c = true) : isPyDigit c = false := by
  have hc : c.toNat = 32 ∨ (9 ≤ c.toNat ∧ c.toNat ≤ 13) := by simpa [isPySpace] using h
  simp only [isPyDigit, decide_eq_false_iff_not]
  omega

/-! ### takeWhile, dropWhile, pyStrip -/

theorem takeWhile_all {p : Char → Bool} {l : List Char} (h : ∀ c ∈ l, p c = true) :
    l.takeWhile p = l := by
  induction l with
  | nil => rfl
  | cons a t ih =>
    have ha := h a (List.mem_cons_self a t)
    have ht := ih fun c hc => h c (List.mem_cons_of_mem a hc)
    simp [List.takeWhile_cons, ha, ht]

theorem dropWhile_all {p : Char → Bool} {l : List Char} (h : ∀ c ∈ l, p c = true) :
    l.dropWhile p = [] := by
  induction l with
  | nil => rfl
  | cons a t ih =>
    rw [List.dropWhile_cons, h a (List.mem_cons_self a t)]
    simp only [if_true]
    exact ih fun c hc => h c (List.mem_cons_of_mem a hc)

theorem takeWhile_append_not {p : Char → Bool} {ds : List Char} {a : Char} {rest : List Char}
    (hds : ∀ c ∈ ds, p c = true) (ha : p a = false) :
    (ds ++ a :: rest).takeWhile p = ds := by
  induction ds with
  | nil => simp [List.takeWhile_cons, ha]
  | cons d t ih =>
    rw [List.cons_append, List.takeWhile_cons, hds d (List.mem_cons_self d t)]
    simp only [if_true]
    rw [ih fun c hc => hds c (List.mem_cons_of_mem d hc)]

theorem dropWhile_append_not {p : Char → Bool} {ds : List Char} {a : Char} {rest : List Char}
    (hds : ∀ c ∈ ds, p c = true) (ha : p a = false) :
    (ds ++ a :: rest).dropWhile p = a :: rest := by
  induction ds with
  | nil => simp [List.dropWhile_cons, ha]
  | cons d t ih =>
    rw [List.cons_append, List.dropWhile_cons, hds d (List.mem_cons_self d t)]
    simp only [if_true]
    exact ih fun c hc => hds c (List.mem_cons_of_mem d hc)

theorem mem_of_mem_dropWhile {p : Char → Bool} {l : List Char} {c : Char}
    (h : c ∈ l.dropWhile p) : c ∈ l := by
  induction l with
  | nil => simp at h
  | cons a t ih =>
    rw [List.dropWhile_cons] at h
    by_cases hp : p a = true
    · simp only [hp, if_true] at h
      exact List.mem_cons_of_mem a (ih h)
    · simp only [hp] at h
      simpa using h

theorem mem_of_mem_pyStrip {l : List Char} {c : Char} (h : c ∈ pyStrip l) : c ∈ l := by
  unfold pyStrip at h
  rw [List.mem_reverse] at h
  have h2 := mem_of_mem_dropWhile h
  rw [List.mem_reverse] at h2
  exact mem_of_mem_dropWhile h2

theorem pyStrip_sandwich (w1 w2 mid : List Char) (a b : Char)
    (hw1 : ∀ c ∈ w1, isPySpace c = true) (hw2 : ∀ c ∈ w2, isPySpace c = true)
    (ha : isPySpace a = false) (hb : isPySpace b = false) :
    pyStrip (w1 ++ a :: mid ++ [b] ++ w2) = a :: mid ++ [b] := by
  unfold pyStrip
  have h1 : (w1 ++ a :: (mid ++ [b] ++ w2)).dropWhile isPySpace = a :: (mid ++ [b] ++ w2) :=
    dropWhile_append_not hw1 ha
  have heq : w1 ++ a :: mid ++ [b] ++ w2 = w1 ++ a :: (mid ++ [b] ++ w2) := by
    simp [List.append_assoc]
  rw [heq, h1]
  have h2 : (a :: (mid ++ [b] ++ w2)).reverse = w2.reverse ++ b :: (mid.reverse ++ [a]) := by
    simp
  rw [h2]
  have hw2r : ∀ c ∈ w2.reverse, isPySpace c = true := fun c hc =>
    hw2 c (List.mem_reverse.mp hc)
  rw [dropWhile_append_not hw2r hb]
  simp

/-! ### hasSub -/

theorem hasSub_of_isPrefixOf {l n : List Char} (h : n.isPrefixOf l = true) :
    hasSub l n = true := by
  cases l with
  | nil =>
    cases n with
    | nil => rfl
    | cons a t => simp [List.isPrefixOf] at h
  | cons a t => simp [hasSub, h]

theorem hasSub_append_left {a b n : List Char} (h : hasSub b n = true) :
    hasSub (a ++ b) n = true := by
  induction a with
  | nil => simpa using h
  | cons x t ih => simp [hasSub, ih]

theorem mem_of_hasSub_single {l : List Char} {c : Char} (h : hasSub l [c] = true) : c ∈ l := by
  induction l with
  | nil => simp [hasSub] at h
  | cons a t ih =>
    simp only [hasSub, Bool.or_eq_true] at h
    rcases h with h | h
    · have hc : c = a := by simpa [List.isPrefixOf] using h
      simp [hc]
    · exact List.mem_cons_of_mem a (ih h)

/-! ### Regex model lemmas -/

theorem tryNumBefore_cons_not_digit (m : List Char) (c : Char) (cs : List Char)
    (h : isPyDigit c = false) : tryNumBefore m (c :: cs) = none := by
  unfold tryNumBefore
  simp [List.takeWhile_cons, h]

theorem searchNumBefore_cons (m : List Char) (c : Char) (cs : List Char) :
    searchNumBefore m (c :: cs) =
      match tryNumBefore m (c :: cs) with
      | some n => some n
      | none => searchNumBefore m cs := rfl

theorem searchNumBefore_skip_nondigit (m P rest : List Char)
    (h : ∀ c ∈ P, isPyDigit c = false) :
    searchNumBefore m (P ++ rest) = searchNumBefore m rest := by
  induction P with
  | nil => rfl
  | cons a t ih =>
    rw [List.cons_append, searchNumBefore_cons,
      tryNumBefore_cons_not_digit m a _ (h a (List.mem_cons_self a t))]
    exact ih fun c hc => h c (List.mem_cons_of_mem a hc)

theorem searchNumBefore_none_of_no_digit (m l : List Char)
    (h : ∀ c ∈ l, isPyDigit c = false) : searchNumBefore m l = none := by
  have := searchNumBefore_skip_nondigit m l [] h
  simpa using this

theorem tryNumBefore_eval (m ds w : List Char) (a : Char) (rest : List Char)
    (hne : ds ≠ []) (hds : ∀ c ∈ ds, isPyDigit c = true)
    (hw : ∀ c ∈ w, isPySpace c = true)
    (ha1 : isPyDigit a = false) (ha2 : isPySpace a = false) :
    tryNumBefore m (ds ++ w ++ a :: rest) =
      if m.isPrefixOf (a :: rest) then some (digitsToNat ds) else none := by
  have h1 : (ds ++ w ++ a :: rest).takeWhile isPyDigit = ds := by
    cases w with
    | nil => simpa using takeWhile_append_not hds ha1
    | cons x xs =>
      have hx : isPyDigit x = false := not_digit_of_space x (hw x (List.mem_cons_self x xs))
      have heq : ds ++ (x :: xs) ++ a :: rest = ds ++ x :: (xs ++ a :: rest) := by simp
      rw [heq]
      exact takeWhile_append_not hds hx
  have h2 : (ds ++ w ++ a :: rest).dropWhile isPyDigit = w ++ a :: rest := by
    cases w with
    | nil => simpa using dropWhile_append_not hds ha1
    | cons x xs =>
      have hx : isPyDigit x = false := not_digit_of_space x (hw x (List.mem_cons_self x xs))
      have heq : ds ++ (x :: xs) ++ a :: rest = ds ++ x :: (xs ++ a :: rest) := by simp
      rw [heq]
      rw [dropWhile_append_not hds hx]
      simp
  have h3 : (w ++ a :: rest).dropWhile isPySpace = a :: rest := dropWhile_append_not hw ha2
  unfold tryNumBefore
  rw [h1, h2, h3]
  simp [hne]

theorem searchNumBefore_skip_digits (m ds w : List Char) (a : Char) (rest : List Char)
    (hds : ∀ c ∈ ds, isPyDigit c = true) (hw : ∀ c ∈ w, isPySpace c = true)
    (ha1 : isPyDigit a = false) (ha2 : isPySpace a = false)
    (hm : m.isPrefixOf (a :: rest) = false) :
    searchNumBefore m (ds ++ w ++ a :: rest) = searchNumBefore m (w ++ a :: rest) := by
  induction ds with
  | nil => rfl
  | cons d t ih =>
    have htry := tryNumBefore_eval m (d :: t) w a rest (by simp) hds hw ha1 ha2
    rw [hm] at htry
    simp at htry
    have heq : (d :: t) ++ w ++ a :: rest = d :: (t ++ w ++ a :: rest) := rfl
    rw [heq, searchNumBefore_cons]
    have htry2 : tryNumBefore m (d :: (t ++ w ++ a :: rest)) = none := by
      simpa [List.append_assoc] using htry
    rw [htry2]
    exact ih fun c hc => hds c (List.mem_cons_of_mem d hc)

theorem searchNumBefore_found (m ds w : List Char) (a : Char) (rest : List Char)
    (hne : ds ≠ []) (hds : ∀ c ∈ ds, isPyDigit c = true)
    (hw : ∀ c ∈ w, isPySpace c = true)
    (ha1 : isPyDigit a = false) (ha2 : isPySpace a = false)
    (hm : m.isPrefixOf (a :: rest) = true) :
    searchNumBefore m (ds ++ w ++ a :: rest) = some (digitsToNat ds) := by
  cases ds with
  | nil => exact absurd rfl hne
  | cons d t =>
    have htry := tryNumBefore_eval m (d :: t) w a rest (by simp) hds hw ha1 ha2
    rw [hm] at htry
    simp at htry
    have heq : (d :: t) ++ w ++ a :: rest = d :: (t ++ w ++ a :: rest) := rfl
    rw [heq, searchNumBefore_cons]
    have htry2 : tryNumBefore m (d :: (t ++ w ++ a :: rest)) = some (digitsToNat (d :: t)) := by
      simpa [List.append_assoc] using htry
    rw [htry2]

theorem matchNumeralCore_none (cs : List Char) (h : ∀ c ∈ cs, isPyDigit c = false) :
    matchNumeralCore cs = none := by
  have hds : cs.takeWhile isPyDigit = [] := by
    cases cs with
    | nil => rfl
    | cons a t => simp [List.takeWhile_cons, h a (List.mem_cons_self a t)]
  have hdrop : cs.dropWhile isPyDigit = cs := by
    cases cs with
    | nil => rfl
    | cons a t => simp [List.dropWhile_cons, h a (List.mem_cons_self a t)]
  unfold matchNumeralCore
  dsimp only
  split
  · rename_i rest2 heq
    rw [hdrop] at heq
    have hfs : rest2.takeWhile isPyDigit = [] := by
      cases rest2 with
      | nil => rfl
      | cons b u =>
        have hb : isPyDigit b = false := by
          apply h
          rw [heq]
          exact List.mem_cons_of_mem _ (List.mem_cons_self b u)
        simp [List.takeWhile_cons, hb]
    rw [hds, hfs]
    simp
  · rw [hds]
    simp

theorem matchNumeralAt_none (cs : List Char) (h : ∀ c ∈ cs, isPyDigit c = false) :
    matchNumeralAt cs = none := by
  cases cs with
  | nil => rfl
  | cons c rest =>
    simp only [matchNumeralAt]
    by_cases hc : c = '+' ∨ c = '-'
    · rw [if_pos hc, matchNumeralCore_none rest fun d hd => h d (List.mem_cons_of_mem c hd)]
      rfl
    · rw [if_neg hc]
      exact matchNumeralCore_none (c :: rest) h

theorem searchNumeral_none_of_no_digit (l : List Char)
    (h : ∀ c ∈ l, isPyDigit c = false) : searchNumeral l = none := by
  induction l with
  | nil => rfl
  | cons a t ih =>
    have : searchNumeral (a :: t) =
        match matchNumeralAt (a :: t) with
        | some m => some m
        | none => searchNumeral t := rfl
    rw [this, matchNumeralAt_none (a :: t) h]
    exact ih fun c hc => h c (List.mem_cons_of_mem a hc)

/-! ### Claim theorems -/

set_option maxRecDepth 100000

/-- C8: for every input string whose trimmed, lowercased form is exactly
"unknown", "-", or the empty string, clean_value returns Null; the
sentinel test is the first branch of clean_value, so it takes precedence
over every other normalization rule. -/
theorem c8_sentinels_null (s : String)
    (h : pyLower (pyStrip s.data) = "unknown".data ∨
         pyLower (pyStrip s.data) = "-".data ∨ pyLower (pyStrip s.data) = []) :
    clean_value s = .null := by
  unfold clean_value
  dsimp only
  rw [if_pos h]

/-- C8 witness: a whitespace and case variant of a sentinel maps to Null. -/
theorem c8_witness : clean_value " UNKNOWN " = Value.null :=
  c8_sentinels_null " UNKNOWN " (by decide)

/-- C9: when the outbound fetch raises, the handler catches the exception
and returns exactly the 500 response carrying the failure message; no
document (not even a partial one) appears, and the single fetch result is
consumed once, with no retry path. -/
theorem c9_fetch_failure_500 (fmtParam : Option String) (msg ts : String) :
    get_ups_data fmtParam (.error msg) ts = .ok (.err500 msg) := rfl

/-- C10: an empty configured secret is falsy in the guard, so every
request is allowed no matter which credentials are supplied. -/
theorem c10_empty_secret_allows (header query : Option String) :
    require_api_key (some "") header query = .allow := by
  simp [require_api_key, pyTruthy]

/-- C2 counterexample: the header credential is cleaned with
str.replace("Bearer ", ""), which removes every occurrence, not one
leading prefix: with secret S, header "Bearer Bearer S" is allowed by the
code though the claimed prefix-stripping gate denies it; and an empty
configured secret allows garbage credentials though the claim as stated
would deny them. -/
theorem c2_counterexample :
    require_api_key (some "S") (some "Bearer Bearer S") none = .allow ∧
    gate_spec (some "S") (some "Bearer Bearer S") none = .deny401 ∧
    require_api_key (some "") (some "garbage") none = .allow ∧
    gate_spec (some "") (some "garbage") none = .deny401 :=
  ⟨by decide, by decide, by decide, by decide⟩

/-- C2 amended: with no secret every request is allowed; with a nonempty
secret S a request is allowed iff the Authorization header value with
every occurrence of "Bearer " removed equals S, or the api_key query
parameter equals S; otherwise it is denied with 401. -/
theorem c2_gate_amended :
    (∀ header query, require_api_key none header query = .allow) ∧
    (∀ S header query, S ≠ "" →
      (require_api_key (some S) header query = .allow ↔
        String.mk (pyRemoveAll "Bearer ".data (header.getD "").data) = S ∨
          query = some S)) := by
  constructor
  · intro header query
    simp [require_api_key, pyTruthy]
  · intro S header query hS
    by_cases hkh : String.mk (pyRemoveAll "Bearer ".data (header.getD "").data) = S <;>
      by_cases hq : query = some S <;>
      simp [require_api_key, pyTruthy, hS, hkh, hq]

/-- C2 witness: with secret S, the standard bearer header is allowed. -/
theorem c2_witness : require_api_key (some "S") (some "Bearer S") none = .allow :=
  (c2_gate_amended.2 "S" (some "Bearer S") none (by decide)).mpr (Or.inl (by decide))

/-- C5 counterexample: on "mn 30 s" both duration regexes are consulted,
the minutes one fails, and the bare except returns the string unchanged;
the generic numeral rule, which would have found 30, is never reached, so
the result is not a number. -/
theorem c5_counterexample :
    clean_value "mn 30 s" = .str "mn 30 s" ∧
    searchNumeral (pyLower (pyStrip "mn 30 s".data)) = some "30".data ∧
    clean_value "mn 30 s" ≠ .num 30 :=
  ⟨by decide, by decide, by decide⟩

/-- C5 amended: when the value contains both markers but one duration
regex finds no numeric run, the raised error is caught by the bare except
and the trimmed lowercased string is returned unchanged; control never
falls through to the generic numeral rule. -/
theorem c5_duration_failure_passthrough (s : String)
    (hsent : ¬(pyLower (pyStrip s.data) = "unknown".data ∨
               pyLower (pyStrip s.data) = "-".data ∨ pyLower (pyStrip s.data) = []))
    (hmn : hasSub (pyLower (pyStrip s.data)) "mn".data = true)
    (hsm : hasSub (pyLower (pyStrip s.data)) "s".data = true)
    (hfail : searchNumBefore "mn".data (pyLower (pyStrip s.data)) = none ∨
             searchNumBefore "s".data (pyLower (pyStrip s.data)) = none) :
    clean_value s = .str (String.mk (pyLower (pyStrip s.data))) := by
  unfold clean_value
  dsimp only
  rw [if_neg hsent, if_pos (⟨hmn, hsm⟩ : _ ∧ _)]
  rcases hfail with hf | hf
  · rw [hf]
  · rw [hf]
    rcases h1 : searchNumBefore "mn".data (pyLower (pyStrip s.data)) with _ | m <;> rfl

/-- C5 witness: "mn 30 s" passes through as its own trimmed lowercased
text. -/
theorem c5_witness : clean_value "mn 30 s" = .str "mn 30 s" := by
  have h := c5_duration_failure_passthrough "mn 30 s" (by decide) (by decide) (by decide)
    (Or.inl (by decide))
  exact h.trans (by decide)

/-- C4 counterexample: clean_value returns the trimmed lowercased string,
not the original: "ABC" (no digit, not a sentinel) comes back as "abc".
A second defect: "INF %" (no digit, not a sentinel) is not returned at
all but parsed by the percent rule into a float infinity. -/
theorem c4_counterexample :
    clean_value "ABC" = .str "abc" ∧
    Value.str "abc" ≠ .str "ABC" ∧
    (∀ c ∈ ("ABC" : String).data, isPyDigit c = false) ∧
    clean_value "INF %" = .inf false ∧
    (∀ c ∈ ("INF %" : String).data, isPyDigit c = false) :=
  ⟨by decide, by decide, by decide, by decide, by decide⟩

/-- C4 amended: for every input that is not a sentinel after trimming and
lowercasing, contains no decimal digit (hence no extractable numeral) and
contains no percent sign, clean_value returns the trimmed lowercased
input string; in particular it is the identity exactly on such inputs
that are already trimmed and lowercase. -/
theorem c4_nonnumeric_passthrough (s : String)
    (hsent : ¬(pyLower (pyStrip s.data) = "unknown".data ∨
               pyLower (pyStrip s.data) = "-".data ∨ pyLower (pyStrip s.data) = []))
    (hdig : ∀ c ∈ s.data, isPyDigit c = false)
    (hpct : ('%' : Char) ∉ s.data) :
    clean_value s = .str (String.mk (pyLower (pyStrip s.data))) := by
  have hvdig : ∀ c ∈ pyLower (pyStrip s.data), isPyDigit c = false := by
    intro c hc
    rcases List.mem_map.mp hc with ⟨c0, hc0, rfl⟩
    cases hx : isPyDigit (pyToLower c0)
    · rfl
    · exfalso
      have h1 := isPyDigit_pyToLower c0 hx
      rw [hdig c0 (mem_of_mem_pyStrip hc0)] at h1
      exact Bool.false_ne_true h1
  have hvpct : hasSub (pyLower (pyStrip s.data)) "%".data = false := by
    cases hx : hasSub (pyLower (pyStrip s.data)) "%".data
    · rfl
    · exfalso
      have hmem := mem_of_hasSub_single (c := '%') hx
      rcases List.mem_map.mp hmem with ⟨c0, hc0, hceq⟩
      have hc0p : c0 = '%' := pyToLower_eq_percent c0 hceq
      exact hpct (hc0p ▸ mem_of_mem_pyStrip hc0)
  unfold clean_value
  dsimp only
  rw [if_neg hsent]
  by_cases hdur : (hasSub (pyLower (pyStrip s.data)) "mn".data = true) ∧
      (hasSub (pyLower (pyStrip s.data)) "s".data = true)
  · rw [if_pos hdur, searchNumBefore_none_of_no_digit _ _ hvdig,
      searchNumBefore_none_of_no_digit _ _ hvdig]
  · rw [if_neg hdur, if_neg (by simp [hvpct]),
      searchNumeral_none_of_no_digit _ hvdig]

/-- C4 witness: an already trimmed lowercase non-numeric value is
returned identically. -/
theorem c4_witness : clean_value "abc" = .str "abc" := by
  have h := c4_nonnumeric_passthrough "abc" (by decide) (by decide) (by decide)
  exact h.trans (by decide)

/-- C3 counterexample: a table whose qualifying rows are labelled A, B, A
extracts to the dict with field order A, B — the duplicated label keeps
its first position (Python dict update), only its value is the later one.
The claimed order B, A is refuted. -/
theorem c3_counterexample :
    processTable "json"
      ("<TABLE><TR><TD COLSPAN=\"2\"><B>Sec</B></TD></TR><TR CLASS=\"popupData\"><TD>A</TD><TD>1</TD></TR><TR CLASS=\"popupData\"><TD>B</TD><TD>2</TD></TR><TR CLASS=\"popupData\"><TD>A</TD><TD>3</TD></TR></TABLE>" : String).data
      = .ok ("Sec", [("A", .str "3"), ("B", .str "2")]) ∧
    ([("A", Value.str "3"), ("B", Value.str "2")].map Prod.fst ≠ ["B", "A"]) :=
  ⟨by rfl, by decide⟩

/-- C3 amended: for qualifying rows labelled A, B, A the section dict
holds only the second value of A, in field order A then B: Python dict
assignment keeps the first insertion position of a duplicated key and
overwrites its value. -/
theorem c3_duplicate_label_order (fmt A B v1 v2 v3 : String) (hAB : A ≠ B) :
    buildSection fmt [(A, v1), (B, v2), (A, v3)] =
      [(A, convRow fmt v3), (B, convRow fmt v2)] := by
  have hBA : B ≠ A := fun h => hAB h.symm
  simp [buildSection, dictSet, hAB, hBA]

/-- C3 witness: the order and values at concrete labels. -/
theorem c3_witness :
    buildSection "json" [("A", "1"), ("B", "2"), ("A", "3")] =
      [("A", Value.str "3"), ("B", Value.str "2")] := by
  have h := c3_duplicate_label_order "json" "A" "B" "1" "2" "3" (by decide)
  exact h.trans (by decide)

/-! ### Table-scan (findTables) lemmas -/

theorem isPrefixOf_append_self (l t : List Char) : l.isPrefixOf (l ++ t) = true := by
  rw [List.isPrefixOf_iff_prefix]
  exact List.prefix_append l t

theorem isPrefixOf_decomp {n l : List Char} (h : n.isPrefixOf l = true) :
    ∃ t, l = n ++ t := by
  rw [List.isPrefixOf_iff_prefix] at h
  obtain ⟨t, ht⟩ := h
  exact ⟨t, ht.symm⟩

theorem isPrefixOf_of_le {n a b : List Char} (h : n.isPrefixOf (a ++ b) = true)
    (hl : n.length ≤ a.length) : n.isPrefixOf a = true := by
  rw [List.isPrefixOf_iff_prefix] at h ⊢
  exact List.prefix_of_prefix_length_le h (List.prefix_append a b) hl

/-- The closing literal cannot begin strictly inside a stretch that does
not contain it and then continue into a following copy of it: if it is a
prefix of mp ++ (closePat ++ s1) with mp nonempty, it already occurs
inside mp. -/
theorem closePat_prefix_cases (mp s1 : List Char) (hne : mp ≠ [])
    (h : closePat.isPrefixOf (mp ++ (closePat ++ s1)) = true) :
    hasSub mp closePat = true := by
  by_cases hlen : 8 ≤ mp.length
  · have hpre : closePat.isPrefixOf mp = true := isPrefixOf_of_le h (by simpa [closePat] using hlen)
    exact hasSub_of_isPrefixOf hpre
  · exfalso
    obtain ⟨t, ht⟩ := isPrefixOf_decomp h
    have hk1 : 1 ≤ mp.length := List.length_pos.mpr hne
    have hk7 : mp.length ≤ 7 := by omega
    have hdrop : closePat.drop mp.length ++ t = closePat ++ s1 := by
      have h1 : (mp ++ (closePat ++ s1)).drop mp.length = closePat ++ s1 :=
        List.drop_left mp (closePat ++ s1)
      have h2 : (closePat ++ t).drop mp.length = closePat.drop mp.length ++ t := by
        rw [List.drop_append_eq_append_drop]
        have : mp.length - closePat.length = 0 := by simp [closePat]; omega
        rw [this]
        simp
      rw [ht] at h1
      rw [h2] at h1
      exact h1
    interval_cases hmp : mp.length <;> revert hdrop <;> simp [closePat]

theorem splitAtCloseGo_length : ∀ (fuel : Nat) (l m r : List Char),
    splitAtCloseGo fuel l = some (m, r) → m.length + 8 + r.length = l.length := by
  intro fuel
  induction fuel with
  | zero => intro l m r h; simp [splitAtCloseGo] at h
  | succ f ih =>
    intro l m r h
    cases l with
    | nil => simp [splitAtCloseGo] at h
    | cons c cs =>
      simp only [splitAtCloseGo] at h
      by_cases hp : closePat.isPrefixOf (c :: cs) = true
      · rw [if_pos hp] at h
        obtain ⟨t, ht⟩ := isPrefixOf_decomp hp
        have hlen : 8 ≤ (c :: cs).length := by
          rw [ht]
          simp [closePat]
        injection h with h1
        injection h1 with hm hr
        subst hm
        subst hr
        simp only [List.length_nil, List.length_drop]
        omega
      · rw [if_neg hp] at h
        cases hm : splitAtCloseGo f cs with
        | none => rw [hm] at h; simp at h
        | some pr =>
          rw [hm] at h
          injection h with h1
          have := ih cs pr.1 pr.2 (by rw [hm])
          have hpr : (c :: pr.1, pr.2) = (m, r) := h1
          injection hpr with hm2 hr2
          subst hm2
          subst hr2
          simp only [List.length_cons]
          omega

/-- Locating the earliest close: when the middle does not contain the
closing literal, the split lands exactly on the boundary. -/
theorem splitAtCloseGo_eval : ∀ (fuel : Nat) (mid s1 : List Char),
    (mid ++ (closePat ++ s1)).length ≤ fuel → hasSub mid closePat = false →
    splitAtCloseGo fuel (mid ++ (closePat ++ s1)) = some (mid, s1) := by
  intro fuel
  induction fuel with
  | zero =>
    intro mid s1 hfuel _
    exfalso
    simp [closePat] at hfuel
  | succ f ih =>
    intro mid s1 hfuel hmid
    cases mid with
    | nil =>
      have hform : ([] : List Char) ++ (closePat ++ s1) =
          '<' :: (['/', 'T', 'A', 'B', 'L', 'E', '>'] ++ s1) := rfl
      rw [hform]
      simp only [splitAtCloseGo]
      have hpre : closePat.isPrefixOf ('<' :: (['/', 'T', 'A', 'B', 'L', 'E', '>'] ++ s1)) = true := by
        have := isPrefixOf_append_self closePat s1
        exact this
      rw [if_pos hpre]
      simp
    | cons c mid' =>
      have hform : (c :: mid') ++ (closePat ++ s1) = c :: (mid' ++ (closePat ++ s1)) := rfl
      rw [hform]
      simp only [splitAtCloseGo]
      have hsplit : hasSub mid' closePat = false ∧
          closePat.isPrefixOf (c :: mid') = false := by
        have : hasSub (c :: mid') closePat =
            (closePat.isPrefixOf (c :: mid') || hasSub mid' closePat) := rfl
        rw [this] at hmid
        exact ⟨by simpa using (Bool.or_eq_false_iff.mp hmid).2,
               by simpa using (Bool.or_eq_false_iff.mp hmid).1⟩
      have hnp : closePat.isPrefixOf (c :: (mid' ++ (closePat ++ s1))) = false := by
        cases hx : closePat.isPrefixOf (c :: (mid' ++ (closePat ++ s1)))
        · rfl
        · exfalso
          have hx2 : closePat.isPrefixOf ((c :: mid') ++ (closePat ++ s1)) = true := hx
          have := closePat_prefix_cases (c :: mid') s1 (by simp) hx2
          rw [hmid] at this
          exact Bool.false_ne_true this
      rw [if_neg (by simp [hnp])]
      have hih := ih mid' s1 (by simp at hfuel ⊢; omega) hsplit.1
      rw [hih]

/-- splitAtClose at the standard fuel. -/
theorem splitAtClose_eval (mid s1 : List Char) (hmid : hasSub mid closePat = false) :
    splitAtClose (mid ++ (closePat ++ s1)) = some (mid, s1) :=
  splitAtCloseGo_eval _ mid s1 le_rfl hmid

/-- findTablesGo does not depend on the fuel once the fuel covers the
input length. -/
theorem findTablesGo_congr : ∀ (f1 f2 : Nat) (l : List Char),
    l.length ≤ f1 → l.length ≤ f2 → findTablesGo f1 l = findTablesGo f2 l := by
  intro f1
  induction f1 with
  | zero =>
    intro f2 l h1 _
    have : l = [] := List.eq_nil_of_length_eq_zero (by omega)
    subst this
    cases f2 <;> rfl
  | succ g1 ih =>
    intro f2 l h1 h2
    cases l with
    | nil => cases f2 <;> rfl
    | cons c cs =>
      cases f2 with
      | zero => simp at h2
      | succ g2 =>
        simp only [findTablesGo]
        by_cases hp : openPat.isPrefixOf (c :: cs) = true
        · rw [if_pos hp, if_pos hp]
          cases hsp : splitAtClose ((c :: cs).drop 12) with
          | none =>
            exact ih g2 cs (by simp at h1; omega) (by simp at h2; omega)
          | some pr =>
            obtain ⟨m1, r1⟩ := pr
            have hlen := splitAtCloseGo_length _ _ m1 r1 hsp
            simp only [List.length_drop, List.length_cons] at hlen
            have hr : r1.length ≤ cs.length := by omega
            show ("<TABLE".data ++ m1 ++ closePat) :: findTablesGo g1 r1 =
              ("<TABLE".data ++ m1 ++ closePat) :: findTablesGo g2 r1
            rw [ih g2 r1 (by simp at h1; omega) (by simp at h2; omega)]
        · rw [if_neg hp, if_neg hp]
          exact ih g2 cs (by simp at h1; omega) (by simp at h2; omega)

/-- One located table: text beginning with the open literal, a middle
free of the closing literal, the closing literal, then the rest; the scan
captures the table and continues after it. -/
theorem findTables_step (mid s1 : List Char) (hmid : hasSub mid closePat = false) :
    findTables (openPat ++ (mid ++ (closePat ++ s1))) =
      ("<TABLE".data ++ mid ++ closePat) :: findTables s1 := by
  unfold findTables
  have hlen : (openPat ++ (mid ++ (closePat ++ s1))).length =
      (11 + (mid ++ (closePat ++ s1)).length) + 1 := by
    simp [openPat]
    omega
  rw [hlen]
  have hform : openPat ++ (mid ++ (closePat ++ s1)) =
      'l' :: (['a', 'b', 'e', 'l', '=', '<', 'T', 'A', 'B', 'L', 'E'] ++ (mid ++ (closePat ++ s1))) := rfl
  rw [hform]
  simp only [findTablesGo]
  have hpre : openPat.isPrefixOf
      ('l' :: (['a', 'b', 'e', 'l', '=', '<', 'T', 'A', 'B', 'L', 'E'] ++ (mid ++ (closePat ++ s1)))) = true := by
    have := isPrefixOf_append_self openPat (mid ++ (closePat ++ s1))
    exact this
  rw [if_pos hpre]
  have hdrop : ('l' :: (['a', 'b', 'e', 'l', '=', '<', 'T', 'A', 'B', 'L', 'E'] ++
      (mid ++ (closePat ++ s1)))).drop 12 = mid ++ (closePat ++ s1) := by
    simp
  rw [hdrop, splitAtClose_eval mid s1 hmid]
  have hfuel : s1.length ≤ 11 + (mid ++ (closePat ++ s1)).length := by
    simp [closePat]
    omega
  show ("<TABLE".data ++ mid ++ closePat) ::
      findTablesGo (11 + (mid ++ (closePat ++ s1)).length) s1 =
    ("<TABLE".data ++ mid ++ closePat) :: findTablesGo s1.length s1
  rw [findTablesGo_congr _ s1.length s1 hfuel le_rfl]

/-- A position that does not begin the open literal is skipped. -/
theorem findTables_skip (c : Char) (cs : List Char)
    (h : openPat.isPrefixOf (c :: cs) = false) :
    findTables (c :: cs) = findTables cs := by
  unfold findTables
  have hlen : (c :: cs).length = cs.length + 1 := by simp
  rw [hlen]
  simp only [findTablesGo]
  rw [if_neg (by simp [h])]

/-- C7 counterexample: the findall pattern is compiled without
re.IGNORECASE, so a lowercase table tag is not found at all, while the
uppercase form is. -/
theorem c7_counterexample :
    findTables "label=<table>x</table>".data = [] ∧
    findTables "label=<TABLE>x</TABLE>".data = ["<TABLE>x</TABLE>".data] :=
  ⟨by decide, by decide⟩

/-- C7 amended: the scan locates each occurrence of the literal
"label=" immediately followed by an uppercase <TABLE ... </TABLE>
fragment, case-sensitively (lowercase <table> fragments are not matched),
collecting every non-overlapping match across the whole text, including
across line breaks: whenever the text starts with the open literal and
the middle part is free of the closing literal (line breaks allowed), the
fragment is captured and scanning resumes after it; a position that does
not start the open literal is skipped. -/
theorem c7_findall_semantics :
    (∀ mid s1 : List Char, hasSub mid closePat = false →
      findTables (openPat ++ (mid ++ (closePat ++ s1))) =
        ("<TABLE".data ++ mid ++ closePat) :: findTables s1) ∧
    (∀ (c : Char) (cs : List Char), openPat.isPrefixOf (c :: cs) = false →
      findTables (c :: cs) = findTables cs) ∧
    findTables "label=<table>x</table>".data = [] :=
  ⟨findTables_step, findTables_skip, by decide⟩

/-- C7 witness: a table fragment spanning a line break is captured and
the scan continues after it. -/
theorem c7_witness :
    findTables "label=<TABLE><TR>\n</TR></TABLE>x".data =
      ["<TABLE><TR>\n</TR></TABLE>".data] := by
  have h := c7_findall_semantics.1 "><TR>\n</TR>".data "x".data (by decide)
  have he1 : "label=<TABLE><TR>\n</TR></TABLE>x".data =
      openPat ++ ("><TR>\n</TR>".data ++ (closePat ++ "x".data)) := by decide
  rw [he1, h]
  decide

/-- C1 counterexample: a payload whose first table has no bold element is
not skipped: the whole request raises out of the handler (modelled as the
error result), even though the second table is well titled; no document
is produced. -/
theorem c1_counterexample :
    get_ups_data (some "json")
      (.ok "label=<TABLE><TR CLASS=\"popupData\"><TD>K</TD><TD>V</TD></TR></TABLE>label=<TABLE><TD COLSPAN=\"2\"><B>T2</B></TD></TABLE>")
      "ts" = .error attrErrorMsg ∧
    (findBList (parseFragment "<TABLE><TD COLSPAN=\"2\"><B>T2</B></TD></TABLE>".data)).isSome = true ∧
    (findBList (parseFragment "<TABLE><TR CLASS=\"popupData\"><TD>K</TD><TD>V</TD></TR></TABLE>".data)) = none :=
  ⟨by rfl, by rfl, by rfl⟩

/-- C1 amended: a table fragment whose parsed HTML contains no bold
element is not treated as a per-table failure: soup.find("b").text raises
an uncaught AttributeError at that fragment, the whole request aborts,
and no document (not even one from the remaining tables) is produced. -/
theorem c1_titleless_aborts :
    (∀ (fmt : String) (pre : List (List Char)) (t : List Char) (post : List (List Char))
        (acc : List (String × List (String × Value))),
      (∀ u ∈ pre, (findBList (parseFragment u)).isSome = true) →
      findBList (parseFragment t) = none →
      tablesToData fmt (pre ++ t :: post) acc = .error attrErrorMsg) ∧
    (∀ (fmtParam : Option String) (ts js : String) (pre : List (List Char))
        (t : List Char) (post : List (List Char)),
      findTables js.data = pre ++ t :: post →
      (∀ u ∈ pre, (findBList (parseFragment u)).isSome = true) →
      findBList (parseFragment t) = none →
      get_ups_data fmtParam (.ok js) ts = .error attrErrorMsg) := by
  have hmain : ∀ (fmt : String) (pre : List (List Char)) (t : List Char)
      (post : List (List Char)) (acc : List (String × List (String × Value))),
      (∀ u ∈ pre, (findBList (parseFragment u)).isSome = true) →
      findBList (parseFragment t) = none →
      tablesToData fmt (pre ++ t :: post) acc = .error attrErrorMsg := by
    intro fmt pre
    induction pre with
    | nil =>
      intro t post acc _ hnone
      show tablesToData fmt (t :: post) acc = .error attrErrorMsg
      simp only [tablesToData, processTable]
      rw [hnone]
    | cons u pre' ih =>
      intro t post acc hpre hnone
      have hu := hpre u (List.mem_cons_self u pre')
      obtain ⟨b, hb⟩ := Option.isSome_iff_exists.mp hu
      show tablesToData fmt (u :: (pre' ++ t :: post)) acc = .error attrErrorMsg
      simp only [tablesToData, processTable]
      rw [hb]
      exact ih t post _ (fun v hv => hpre v (List.mem_cons_of_mem u hv)) hnone
  refine ⟨hmain, ?_⟩
  intro fmtParam ts js pre t post htables hpre hnone
  show get_ups_data fmtParam (.ok js) ts = .error attrErrorMsg
  unfold get_ups_data
  dsimp only
  rw [htables, hmain _ pre t post [] hpre hnone]

/-! ### C6 duration parsing -/

theorem not_space_of_digit (c : Char) (h : isPyDigit c = true) : isPySpace c = false := by
  have hc : 48 ≤ c.toNat ∧ c.toNat ≤ 57 := by simpa [isPyDigit] using h
  simp only [isPySpace, decide_eq_false_iff_not]
  omega

theorem map_pyToLower_id {l : List Char} (h : ∀ c ∈ l, pyToLower c = c) :
    List.map pyToLower l = l := by
  induction l with
  | nil => rfl
  | cons a t ih =>
    rw [List.map_cons, h a (List.mem_cons_self a t),
      ih fun c hc => h c (List.mem_cons_of_mem a hc)]

theorem mn_data_eq : "mn".data = ['m', 'n'] := by decide

theorem s_data_eq : "s".data = ['s'] := by decide

theorem digit_head_not_sentinel (d0 : Char) (rest : List Char)
    (hd : isPyDigit d0 = true) :
    ¬(d0 :: rest = "unknown".data ∨ d0 :: rest = "-".data ∨ d0 :: rest = []) := by
  intro h
  rcases h with h | h | h
  · have h2 : d0 :: rest = 'u' :: ['n', 'k', 'n', 'o', 'w', 'n'] := h
    injection h2 with h1 _
    rw [h1] at hd
    exact absurd hd (by decide)
  · have h2 : d0 :: rest = '-' :: [] := h
    injection h2 with h1 _
    rw [h1] at hd
    exact absurd hd (by decide)
  · simp at h

/-- C6: every input of the shape whitespace, digits of N, whitespace, the
minutes marker in either case, whitespace, digits of M, whitespace, the
seconds marker in either case, whitespace, normalizes to the Python int
N * 60 + M. -/
theorem c6_duration_parse (w1 w2 w3 w4 w5 dN dM : List Char) (m1 n1 s1 : Char) (N M : Nat)
    (hw1 : ∀ c ∈ w1, isPySpace c = true) (hw2 : ∀ c ∈ w2, isPySpace c = true)
    (hw3 : ∀ c ∈ w3, isPySpace c = true) (hw4 : ∀ c ∈ w4, isPySpace c = true)
    (hw5 : ∀ c ∈ w5, isPySpace c = true)
    (hdN : dN ≠ []) (hdNd : ∀ c ∈ dN, isPyDigit c = true)
    (hdM : dM ≠ []) (hdMd : ∀ c ∈ dM, isPyDigit c = true)
    (hm1 : m1 = 'm' ∨ m1 = 'M') (hn1 : n1 = 'n' ∨ n1 = 'N') (hs1 : s1 = 's' ∨ s1 = 'S')
    (hN : digitsToNat dN = N) (hM : digitsToNat dM = M) :
    clean_value (String.mk (w1 ++ dN ++ w2 ++ [m1, n1] ++ w3 ++ dM ++ w4 ++ [s1] ++ w5)) =
      .int ((N * 60 + M : Nat) : Int) := by
  obtain ⟨d0, dN0, rfl⟩ : ∃ d0 dN0, dN = d0 :: dN0 := by
    cases dN with
    | nil => exact absurd rfl hdN
    | cons a b => exact ⟨a, b, rfl⟩
  have hd0 : isPyDigit d0 = true := hdNd d0 (List.mem_cons_self d0 dN0)
  have hs1ns : isPySpace s1 = false := by rcases hs1 with rfl | rfl <;> decide
  -- the stripped core
  have hL : w1 ++ (d0 :: dN0) ++ w2 ++ [m1, n1] ++ w3 ++ dM ++ w4 ++ [s1] ++ w5 =
      w1 ++ d0 :: (dN0 ++ w2 ++ [m1, n1] ++ w3 ++ dM ++ w4) ++ [s1] ++ w5 := by
    simp [List.append_assoc]
  have hstrip : pyStrip (w1 ++ (d0 :: dN0) ++ w2 ++ [m1, n1] ++ w3 ++ dM ++ w4 ++ [s1] ++ w5) =
      d0 :: (dN0 ++ w2 ++ [m1, n1] ++ w3 ++ dM ++ w4) ++ [s1] := by
    rw [hL]
    exact pyStrip_sandwich w1 w5 (dN0 ++ w2 ++ [m1, n1] ++ w3 ++ dM ++ w4) d0 s1
      hw1 hw5 (not_space_of_digit d0 hd0) hs1ns
  -- lowering fixes everything except the markers
  have hlowmn : List.map pyToLower [m1, n1] = ['m', 'n'] := by
    rcases hm1 with rfl | rfl <;> rcases hn1 with rfl | rfl <;> decide
  have hlows : List.map pyToLower [s1] = ['s'] := by
    rcases hs1 with rfl | rfl <;> decide
  have hlow : pyLower (d0 :: (dN0 ++ w2 ++ [m1, n1] ++ w3 ++ dM ++ w4) ++ [s1]) =
      (d0 :: dN0) ++ w2 ++ ['m', 'n'] ++ w3 ++ dM ++ w4 ++ ['s'] := by
    have hform : d0 :: (dN0 ++ w2 ++ [m1, n1] ++ w3 ++ dM ++ w4) ++ [s1] =
        (d0 :: dN0) ++ w2 ++ [m1, n1] ++ w3 ++ dM ++ w4 ++ [s1] := by
      simp [List.append_assoc]
    rw [hform]
    simp only [pyLower, List.map_append]
    rw [map_pyToLower_id fun c hc => pyToLower_of_digit c (hdNd c hc),
      map_pyToLower_id fun c hc => pyToLower_of_space c (hw2 c hc),
      map_pyToLower_id fun c hc => pyToLower_of_space c (hw3 c hc),
      map_pyToLower_id fun c hc => pyToLower_of_digit c (hdMd c hc),
      map_pyToLower_id fun c hc => pyToLower_of_space c (hw4 c hc),
      hlowmn, hlows]
  have hval : pyLower (pyStrip (w1 ++ (d0 :: dN0) ++ w2 ++ [m1, n1] ++ w3 ++ dM ++ w4 ++ [s1] ++ w5)) =
      (d0 :: dN0) ++ w2 ++ ['m', 'n'] ++ w3 ++ dM ++ w4 ++ ['s'] := by
    rw [hstrip, hlow]
  -- the computed value is not a sentinel
  have hsent : ¬((d0 :: dN0) ++ w2 ++ ['m', 'n'] ++ w3 ++ dM ++ w4 ++ ['s'] = "unknown".data ∨
      (d0 :: dN0) ++ w2 ++ ['m', 'n'] ++ w3 ++ dM ++ w4 ++ ['s'] = "-".data ∨
      (d0 :: dN0) ++ w2 ++ ['m', 'n'] ++ w3 ++ dM ++ w4 ++ ['s'] = []) :=
    digit_head_not_sentinel d0 _ hd0
  -- both markers occur
  have hsub_mn : hasSub ((d0 :: dN0) ++ w2 ++ ['m', 'n'] ++ w3 ++ dM ++ w4 ++ ['s']) "mn".data = true := by
    have hV2 : (d0 :: dN0) ++ w2 ++ ['m', 'n'] ++ w3 ++ dM ++ w4 ++ ['s'] =
        ((d0 :: dN0) ++ w2) ++ ('m' :: 'n' :: (w3 ++ dM ++ w4 ++ ['s'])) := by
      simp [List.append_assoc]
    rw [hV2]
    exact hasSub_append_left (hasSub_of_isPrefixOf (by rw [mn_data_eq]; simp [List.isPrefixOf]))
  have hsub_s : hasSub ((d0 :: dN0) ++ w2 ++ ['m', 'n'] ++ w3 ++ dM ++ w4 ++ ['s']) "s".data = true := by
    have hV3 : (d0 :: dN0) ++ w2 ++ ['m', 'n'] ++ w3 ++ dM ++ w4 ++ ['s'] =
        ((d0 :: dN0) ++ w2 ++ ['m', 'n'] ++ w3 ++ dM ++ w4) ++ ('s' :: []) := by
      simp [List.append_assoc]
    rw [hV3]
    exact hasSub_append_left (hasSub_of_isPrefixOf (by rw [s_data_eq]; simp [List.isPrefixOf]))
  -- the minutes search hits at position zero
  have hfound_mn : searchNumBefore "mn".data
      ((d0 :: dN0) ++ w2 ++ ['m', 'n'] ++ w3 ++ dM ++ w4 ++ ['s']) = some N := by
    have h := searchNumBefore_found "mn".data (d0 :: dN0) w2 'm'
      ('n' :: (w3 ++ dM ++ w4 ++ ['s'])) (by simp) hdNd hw2 (by decide) (by decide)
      (by rw [mn_data_eq]; simp [List.isPrefixOf])
    rw [hN] at h
    have hVe : (d0 :: dN0) ++ w2 ++ ['m', 'n'] ++ w3 ++ dM ++ w4 ++ ['s'] =
        (d0 :: dN0) ++ w2 ++ 'm' :: 'n' :: (w3 ++ dM ++ w4 ++ ['s']) := by
      simp [List.append_assoc]
    rw [hVe]
    exact h
  -- the seconds search skips the minutes digits and the markers
  have hfound_s : searchNumBefore "s".data
      ((d0 :: dN0) ++ w2 ++ ['m', 'n'] ++ w3 ++ dM ++ w4 ++ ['s']) = some M := by
    have hA := searchNumBefore_skip_digits "s".data (d0 :: dN0) w2 'm'
      ('n' :: (w3 ++ dM ++ w4 ++ ['s'])) hdNd hw2 (by decide) (by decide)
      (by rw [s_data_eq]; simp [List.isPrefixOf])
    have hBform : w2 ++ 'm' :: 'n' :: (w3 ++ dM ++ w4 ++ ['s']) =
        (w2 ++ ['m', 'n'] ++ w3) ++ (dM ++ w4 ++ 's' :: []) := by
      simp [List.append_assoc]
    have hBnd : ∀ c ∈ w2 ++ ['m', 'n'] ++ w3, isPyDigit c = false := by
      intro c hc
      simp only [List.mem_append, List.mem_cons, List.mem_singleton] at hc
      rcases hc with (hc | hc | hc) | hc
      · exact not_digit_of_space c (hw2 c hc)
      · subst hc; decide
      · rcases hc with hc | hc
        · subst hc; decide
        · simp at hc
      · exact not_digit_of_space c (hw3 c hc)
    have hB := searchNumBefore_skip_nondigit "s".data (w2 ++ ['m', 'n'] ++ w3)
      (dM ++ w4 ++ 's' :: []) hBnd
    have hC := searchNumBefore_found "s".data dM w4 's' [] hdM hdMd hw4
      (by decide) (by decide) (by rw [s_data_eq]; simp [List.isPrefixOf])
    rw [hM] at hC
    have hVe2 : (d0 :: dN0) ++ w2 ++ ['m', 'n'] ++ w3 ++ dM ++ w4 ++ ['s'] =
        (d0 :: dN0) ++ w2 ++ 'm' :: 'n' :: (w3 ++ dM ++ w4 ++ ['s']) := by
      simp [List.append_assoc]
    rw [hVe2]
    calc searchNumBefore "s".data ((d0 :: dN0) ++ w2 ++ 'm' :: 'n' :: (w3 ++ dM ++ w4 ++ ['s']))
        = searchNumBefore "s".data (w2 ++ 'm' :: 'n' :: (w3 ++ dM ++ w4 ++ ['s'])) := hA
      _ = searchNumBefore "s".data ((w2 ++ ['m', 'n'] ++ w3) ++ (dM ++ w4 ++ 's' :: [])) := by
          rw [hBform]
      _ = searchNumBefore "s".data (dM ++ w4 ++ 's' :: []) := hB
      _ = some M := hC
  -- assemble
  unfold clean_value
  dsimp only
  rw [hval, if_neg hsent, if_pos (⟨hsub_mn, hsub_s⟩ : _ ∧ _), hfound_mn, hfound_s]

/-- C6 witness: "40 mn 22 s" normalizes to 2422 seconds. -/
theorem c6_witness : clean_value "40 mn 22 s" = .int 2422 := by
  have h := c6_duration_parse [] [' '] [' '] [' '] [] ['4', '0'] ['2', '2'] 'm' 'n' 's' 40 22
    (by decide) (by decide) (by decide) (by decide) (by decide)
    (by decide) (by decide) (by decide) (by decide)
    (Or.inl rfl) (Or.inl rfl) (Or.inl rfl) (by decide) (by decide)
  exact (by decide : clean_value "40 mn 22 s" = clean_value (String.mk ([] ++ ['4', '0'] ++ [' '] ++ ['m', 'n'] ++ [' '] ++ ['2', '2'] ++ [' '] ++ ['s'] ++ []))).trans
    (h.trans (by decide))

/-- C1 witness: the abort on a concrete payload with a titleless first
table followed by a titled one. -/
theorem c1_witness :
    get_ups_data (some "json")
      (.ok "label=<TABLE><TR CLASS=\"popupData\"><TD>K</TD><TD>V</TD></TR></TABLE>label=<TABLE><TD COLSPAN=\"2\"><B>T2</B></TD></TABLE>")
      "ts" = .error attrErrorMsg := by
  exact c1_titleless_aborts.2 (some "json") "ts" _
    [] "<TABLE><TR CLASS=\"popupData\"><TD>K</TD><TD>V</TD></TR></TABLE>".data
    ["<TABLE><TD COLSPAN=\"2\"><B>T2</B></TD></TABLE>".data]
    (by rfl)
    (by intro u hu; exact absurd hu (List.not_mem_nil u))
    (by rfl)

end UpsScraper
